import Mathlib

/-!
Shallow embedding of the core data transforms of `src/app.py` (a Streamlit
faculty-allocation dashboard).  The three functions modelled are
`identify_faculty_columns`, `distribute_students` and
`summarize_faculty_preferences`.

Modelling conventions:
* A pandas `DataFrame` is a `Table`: a list of column names plus a list of
  rows, each row a list of cell `Value`s aligned with the columns.  Column
  names are assumed unique (pandas `read_csv`, the only producer of input
  tables in `app.py`, mangles duplicate headers to `A.1` etc., so the core
  functions never see duplicate column names).
* A cell is either a numeric value (modelled as `ℚ`; CGPA and rank cells are
  finite decimals, on which float comparison and truncation agree with the
  rational ones) or a string.
* Python exceptions become `Except Err`: `Err.keyError` models the `KeyError`
  raised by pandas column lookup (`Index.get_loc`, `sort_values(by=missing)`,
  `row[missing]`) — this is the "SchemaError" of the specification — and
  `Err.zeroDivisionError` models the `ZeroDivisionError` raised by `idx % 0`.
* `logger.warning` calls in the summarizer are modelled by returning the
  number of warnings alongside the result table.
* `df.sort_values(by=c, ascending=False)` (pandas) computes an ascending
  argsort of the key column and then reverses the whole indexer
  (`pandas.core.sorting.nargsort`: `indexer = indexer[::-1]`).  The
  underlying numpy argsort with the default `quicksort` kind is not stable
  in general: its introsort only degenerates to a plain (stable) insertion
  sort on small arrays (at most 15 elements), and on larger arrays the
  order among equal keys is implementation-defined.  We model the ascending
  argsort as a stable insertion sort, hence the sorted table is
  `reverse (stable ascending sort)`.  This model is exact for tables of at
  most 15 rows; for larger tables it fixes one particular tie order, and we
  state tie-order-dependent conclusions only under a `rows.length ≤ 15`
  hypothesis — every other theorem that touches the sort depends only on
  properties the model shares with any argsort of the key column (the row
  multiset, the non-increasing key order, determinism, and dependence on
  the key column alone).
-/

namespace FacultyAlloc

/-- A cell of the tabular data: a numeric value or a string. -/
inductive Value where
  | num (q : ℚ)
  | str (s : String)
deriving DecidableEq, Repr

/-- The Python exception kinds the core functions can raise.
`keyError` is raised by pandas when a column name is absent (this is the
specification's `SchemaError`); `zeroDivisionError` is raised by `idx % 0`. -/
inductive Err where
  | keyError
  | zeroDivisionError
deriving DecidableEq, Repr

/-- A pandas `DataFrame`: column names plus rows of cells. -/
structure Table where
  cols : List String
  rows : List (List Value)
deriving DecidableEq, Repr

/-- Position of the first occurrence of a column name, modelling
`pandas.Index.get_loc` on a unique index (returns `cols.length` when the
name is absent; it is only used under a membership guard). -/
def colIndex : List String → String → ℕ
  | [], _ => 0
  | a :: rest, c => if a = c then 0 else colIndex rest c + 1

/-- Cell of `row` in the column named `name` (`row[name]` on a pandas row). -/
def cellD (cols : List String) (row : List Value) (name : String) : Value :=
  row.getD (colIndex cols name) (Value.str "")

/-- Numeric reading of a cell, used as the sort key of `sort_values`. -/
def ratOf : Value → ℚ
  | .num q => q
  | .str _ => 0

/-- Truncation toward zero, the behaviour of Python `int()` on a float: the
numerator divided by the (positive) denominator, rounding toward zero. -/
def ratTrunc (q : ℚ) : ℤ := q.num.tdiv (q.den : ℤ)

/-- Whitespace characters Python `int()` strips around a string. -/
def isSpaceChar (ch : Char) : Bool :=
  ch = ' ' ∨ ch = '\t' ∨ ch = '\n' ∨ ch = '\r'

/-- ASCII decimal digit test. -/
def isDigitChar (ch : Char) : Bool := '0' ≤ ch ∧ ch ≤ '9'

/-- Value accumulated from a non-empty run of decimal digits; `none` as
soon as a non-digit appears. -/
def digitsVal : List Char → ℕ → Option ℕ
  | [], acc => some acc
  | ch :: rest, acc =>
    if isDigitChar ch then digitsVal rest (acc * 10 + (ch.toNat - 48))
    else none

/-- Parse one or more decimal digits. -/
def parseDigits (l : List Char) : Option ℕ :=
  if l = [] then none else digitsVal l 0

/-- Strip leading and trailing whitespace. -/
def stripSpaces (l : List Char) : List Char :=
  ((l.dropWhile isSpaceChar).reverse.dropWhile isSpaceChar).reverse

/-- Python `int()` on a string: optional surrounding whitespace, optional
sign, then decimal digits; anything else raises `ValueError` (modelled for
ASCII digit strings, which is all the input format uses). -/
def parseIntStr (s : String) : Option ℤ :=
  match stripSpaces s.data with
  | '-' :: rest => (parseDigits rest).map (fun n => -(n : ℤ))
  | '+' :: rest => (parseDigits rest).map (fun n => (n : ℤ))
  | l => (parseDigits l).map (fun n => (n : ℤ))

/-- Python `int(cell)`: truncates a numeric cell toward zero, parses a string
cell as a decimal integer; `none` models the raised `ValueError`. -/
def pyInt : Value → Option ℤ
  | .num q => some (ratTrunc q)
  | .str s => parseIntStr s

/-- `identify_faculty_columns(table, ref_col)` of `app.py`: the columns
strictly after the reference column.  `table.columns.get_loc(ref_col)`
raises `KeyError` when the reference column is absent; the function logs and
re-raises. -/
def identify_faculty_columns (t : Table) (ref_col : String := "CGPA") :
    Except Err (List String) :=
  if ref_col ∈ t.cols then
    .ok (t.cols.drop (colIndex t.cols ref_col + 1))
  else
    .error Err.keyError

/-- The sort key of a row: the numeric value of its reference-column cell. -/
def keyOf (cols : List String) (c : String) (row : List Value) : ℚ :=
  ratOf (cellD cols row c)

/-- Row order produced by `table.sort_values(by=c, ascending=False)`:
pandas reverses an ascending argsort of the key column, modelled here as a
stable insertion sort.  Exact for tables of at most 15 rows (numpy's
default argsort is a plain stable insertion sort there); for larger tables
the program's tie order is implementation-defined and this definition fixes
one representative, so conclusions about the order among equal keys are
drawn only under a `rows.length ≤ 15` hypothesis (see module docstring). -/
def sortedRows (t : Table) (c : String) : List (List Value) :=
  (List.insertionSort (fun r s => keyOf t.cols c r ≤ keyOf t.cols c s) t.rows).reverse

/-- `table.sort_values(by=c, ascending=False).reset_index(drop=True)`:
raises `KeyError` when the `by` column is absent, otherwise permutes the
rows. -/
def sort_values (t : Table) (c : String) : Except Err Table :=
  if c ∈ t.cols then .ok ⟨t.cols, sortedRows t c⟩ else .error Err.keyError

/-- One output row of `distribute_students` (the dict appended to
`allocations`, keys `Roll Number`, `Full Name`, `Email`, `CGPA`,
`Assigned Faculty`). -/
structure AllocRecord where
  roll : Value
  name : Value
  email : Value
  cgpa : Value
  assigned : String
deriving DecidableEq, Repr

/-- Default record used only as a `getD` fallback in theorem statements. -/
def dfltRec : AllocRecord :=
  ⟨Value.str "", Value.str "", Value.str "", Value.str "", ""⟩

/-- The allocation record built from a sorted row and its assigned faculty. -/
def mkAlloc (cols : List String) (c : String) (fac : String) (row : List Value) :
    AllocRecord :=
  { roll := cellD cols row "Roll"
    name := cellD cols row "Name"
    email := cellD cols row "Email"
    cgpa := cellD cols row c
    assigned := fac }

/-- `distribute_students(table, cgpa_field)` of `app.py`.
The loop body computes `faculties[idx % len(faculties)]` first — with zero
faculty columns and at least one row this raises `ZeroDivisionError` — and
then looks up `row['Roll']`, `row['Name']`, `row['Email']`, `row[cgpa_field]`
(a `KeyError` if one of those columns is absent).  With no rows the loop body
never runs and the result is the empty record list. -/
def distribute_students (t : Table) (c : String := "CGPA") :
    Except Err (List AllocRecord) :=
  match sort_values t c with
  | .error e => .error e
  | .ok sorted =>
    match identify_faculty_columns sorted c with
    | .error e => .error e
    | .ok facs =>
      if sorted.rows.length = 0 then .ok []
      else if facs.length = 0 then .error Err.zeroDivisionError
      else if "Roll" ∈ t.cols ∧ "Name" ∈ t.cols ∧ "Email" ∈ t.cols then
        .ok ((List.range sorted.rows.length).map
          (fun i => mkAlloc t.cols c (facs.getD (i % facs.length) "")
            (sorted.rows.getD i [])))
      else .error Err.keyError

/-- The faculty columns of a table (the `.ok` value of
`identify_faculty_columns` when the reference column is present). -/
def facultiesAfter (t : Table) (c : String) : List String :=
  t.cols.drop (colIndex t.cols c + 1)

/-- Final value of the counter `summary[fac][r]` for `r ∈ [1, F]`: the loop
over rows increments it once for every row whose cell in column `fac` passes
`int()` with result `r` (the `rank in summary[fac]` range guard is implied by
`r ∈ [1, F]`). -/
def rankCount (t : Table) (fac : String) (r : ℕ) : ℕ :=
  t.rows.countP (fun row => decide (pyInt (cellD t.cols row fac) = some ((r : ℕ) : ℤ)))

/-- The rank-count column names `Pref 1 .. Pref F` of the summary table. -/
def prefColumns (F : ℕ) : List String :=
  (List.range F).map (fun i => "Pref " ++ toString (i + 1))

/-- One row of the summary table: the faculty name followed by its F rank
counts. -/
def summaryRow (t : Table) (F : ℕ) (fac : String) : List Value :=
  Value.str fac :: (List.range F).map (fun i => Value.num (rankCount t fac (i + 1)))

/-- Number of `logger.warning` calls of `summarize_faculty_preferences`: one
per (row, faculty cell) pair on which `int()` raises. -/
def diagCount (t : Table) (c : String) : ℕ :=
  (t.rows.map (fun row =>
    (facultiesAfter t c).countP
      (fun fac => (pyInt (cellD t.cols row fac)).isNone))).sum

/-- `summarize_faculty_preferences(table, cgpa_field)` of `app.py`, paired
with the number of warnings it logs.  After the counting loops the summary
dict is transposed into a DataFrame with one row per faculty, columns renamed
`Pref 1..Pref F`, and the index materialised as a leading `Faculty` column. -/
def summarize_faculty_preferences (t : Table) (c : String := "CGPA") :
    Except Err (Table × ℕ) :=
  match identify_faculty_columns t c with
  | .error e => .error e
  | .ok facs =>
    .ok (⟨"Faculty" :: prefColumns facs.length,
          facs.map (summaryRow t facs.length)⟩, diagCount t c)

/-! ### Concrete tables used by witnesses and counterexamples -/

/-- The specification's scenario: CGPA 9.0, 7.0, 8.0 with faculties A, B. -/
def exTable : Table :=
  { cols := ["Roll", "Name", "Email", "CGPA", "A", "B"]
    rows := [[.num 1, .str "p", .str "p@x", .num 9, .num 1, .num 2],
             [.num 2, .str "q", .str "q@x", .num 7, .num 2, .num 1],
             [.num 3, .str "r", .str "r@x", .num 8, .num 1, .num 2]] }

/-- The allocation produced on `exTable` (sorted CGPA 9, 8, 7; round robin
A, B, A). -/
def exRecs : List AllocRecord :=
  [⟨.num 1, .str "p", .str "p@x", .num 9, "A"⟩,
   ⟨.num 3, .str "r", .str "r@x", .num 8, "B"⟩,
   ⟨.num 2, .str "q", .str "q@x", .num 7, "A"⟩]

/-- A table whose reference column is the last column (zero faculty
columns) and that has one row. -/
def zeroFacTable : Table :=
  { cols := ["Roll", "Name", "Email", "CGPA"]
    rows := [[.num 1, .str "p", .str "p@x", .num 9]] }

/-- A table lacking the reference column `CGPA`. -/
def noRefTable : Table :=
  { cols := ["Roll", "Name", "Email", "Marks", "A"]
    rows := [[.num 1, .str "p", .str "p@x", .num 9, .num 1]] }

/-- One row whose rank cell for faculty A is the integer 99, outside the
valid range [1, 2]. -/
def oorTable : Table :=
  { cols := ["CGPA", "A", "B"]
    rows := [[.num 5, .num 99, .num 1]] }

/-- The specification's scenario: a rank cell containing "abc". -/
def abcTable : Table :=
  { cols := ["CGPA", "A", "B"]
    rows := [[.num 5, .str "abc", .num 1],
             [.num 6, .num 2, .num 2]] }

/-- One row whose rank cell for faculty A is the non-integer numeric 2.9. -/
def truncTable : Table :=
  { cols := ["CGPA", "A", "B"]
    rows := [[.num 1, .num (mkRat 29 10), .num 1]] }

/-! ### Helper lemmas -/

lemma colIndex_append {pre : List String} {c : String} (suf : List String)
    (h : c ∉ pre) : colIndex (pre ++ c :: suf) c = pre.length := by
  induction pre with
  | nil => simp [colIndex]
  | cons a pre ih =>
    have ha : a ≠ c := fun hac => h (hac ▸ List.mem_cons_self a pre)
    have hnp : c ∉ pre := fun hc => h (List.mem_cons_of_mem a hc)
    simp [colIndex, ha, ih hnp]

lemma drop_colIndex_succ {pre : List String} {c : String} (suf : List String)
    (h : c ∉ pre) :
    (pre ++ c :: suf).drop (colIndex (pre ++ c :: suf) c + 1) = suf := by
  rw [colIndex_append suf h]
  have h1 : (pre ++ c :: suf).drop pre.length = c :: suf := List.drop_left pre _
  have h2 : (pre ++ c :: suf).drop (pre.length + 1)
      = ((pre ++ c :: suf).drop pre.length).drop 1 := by
    rw [List.drop_drop]
  rw [h2, h1]
  rfl

lemma length_sortedRows (t : Table) (c : String) :
    (sortedRows t c).length = t.rows.length := by
  simp [sortedRows, List.length_insertionSort]

/-! ### C5 — Column Detector returns exactly the columns after the
reference column -/

/-- C5: for every table whose schema contains the reference column (written
as a prefix not containing it, the column itself, and a suffix), the
Column Detector returns exactly the columns strictly after the reference
column, in original order (the empty sequence when it is last). -/
theorem detector_columns_after_ref (t : Table) (c : String)
    (pre suf : List String) (hpre : c ∉ pre) (hcols : t.cols = pre ++ c :: suf) :
    identify_faculty_columns t c = .ok suf := by
  have hc : c ∈ t.cols := by
    rw [hcols]
    exact List.mem_append_right _ (List.mem_cons_self c suf)
  rw [identify_faculty_columns, if_pos hc, hcols, drop_colIndex_succ suf hpre]

/-- Witness for C5 on the concrete scenario table. -/
theorem detector_columns_after_ref_witness :
    ("CGPA" ∉ (["Roll", "Name", "Email"] : List String)) ∧
    identify_faculty_columns exTable "CGPA" = .ok ["A", "B"] :=
  ⟨by decide,
   detector_columns_after_ref exTable "CGPA" ["Roll", "Name", "Email"]
     ["A", "B"] (by decide) rfl⟩

/-! ### C6 — missing reference column: SchemaError everywhere, no output -/

/-- C6: when the reference column is absent, the Column Detector fails with
the schema error kind (`KeyError`), and both the Allocator and the
Summarizer fail with the same error kind: no allocation and no summary
value is produced. -/
theorem missing_ref_schema_error (t : Table) (c : String) (h : c ∉ t.cols) :
    identify_faculty_columns t c = .error Err.keyError ∧
    distribute_students t c = .error Err.keyError ∧
    summarize_faculty_preferences t c = .error Err.keyError := by
  refine ⟨?_, ?_, ?_⟩
  · rw [identify_faculty_columns, if_neg h]
  · simp only [distribute_students, sort_values, if_neg h]
  · simp only [summarize_faculty_preferences, identify_faculty_columns, if_neg h]

/-- Witness for C6 on a concrete table lacking the `CGPA` column. -/
theorem missing_ref_schema_error_witness :
    ("CGPA" ∉ noRefTable.cols) ∧
    identify_faculty_columns noRefTable "CGPA" = .error Err.keyError ∧
    distribute_students noRefTable "CGPA" = .error Err.keyError ∧
    summarize_faculty_preferences noRefTable "CGPA" = .error Err.keyError :=
  ⟨by decide, missing_ref_schema_error noRefTable "CGPA" (by decide)⟩

/-! ### C1 — zero faculty columns (corrected)

The claim says the Allocator checks F = 0 explicitly before any modulo
computation and fails with a distinct `SchemaError`.  The code has no such
check: the loop body evaluates `faculties[idx % len(faculties)]`, and with
`len(faculties) = 0` and at least one row this raises `ZeroDivisionError`
— a runtime arithmetic fault, not the schema error kind. -/

/-- C1 counterexample: on a one-row table whose reference column is last,
the Allocator fails with `ZeroDivisionError`, which is not the schema
error kind (`KeyError`) the claim requires. -/
theorem allocator_zero_faculties_not_schema_error :
    distribute_students zeroFacTable "CGPA" = .error Err.zeroDivisionError ∧
    Err.zeroDivisionError ≠ Err.keyError :=
  ⟨rfl, by decide⟩

/-- C1 amended: for every table whose reference column is present but
followed by zero columns and holding at least one row, the Allocator fails
with `ZeroDivisionError` (the `idx % 0` arithmetic fault), producing no
output. -/
theorem allocator_zero_faculties_zero_division (t : Table) (c : String)
    (hc : c ∈ t.cols) (hlast : facultiesAfter t c = []) (hrows : t.rows ≠ []) :
    distribute_students t c = .error Err.zeroDivisionError := by
  have hid : identify_faculty_columns (⟨t.cols, sortedRows t c⟩ : Table) c
      = .ok (facultiesAfter t c) := by
    rw [identify_faculty_columns, if_pos hc]
    rfl
  have h0 : ¬ (sortedRows t c).length = 0 := by
    rw [length_sortedRows]
    simpa [List.length_eq_zero] using hrows
  simp only [distribute_students, sort_values, if_pos hc, hid, hlast]
  rw [if_neg h0]
  rfl

/-- Witness for the amended C1 on the concrete zero-faculty table. -/
theorem allocator_zero_faculties_zero_division_witness :
    ("CGPA" ∈ zeroFacTable.cols ∧ facultiesAfter zeroFacTable "CGPA" = [] ∧
      zeroFacTable.rows ≠ []) ∧
    distribute_students zeroFacTable "CGPA" = .error Err.zeroDivisionError :=
  ⟨⟨by decide, by decide, by decide⟩,
   allocator_zero_faculties_zero_division zeroFacTable "CGPA"
     (by decide) (by decide) (by decide)⟩

/-! ### Sorting lemmas for the descending sort model -/

lemma pairwise_insertionSort_key {α : Type} (key : α → ℚ) (l : List α) :
    (List.insertionSort (fun x y => key x ≤ key y) l).Pairwise
      (fun x y => key x ≤ key y) := by
  haveI : IsTotal α (fun x y => key x ≤ key y) :=
    ⟨fun a b => le_total (key a) (key b)⟩
  haveI : IsTrans α (fun x y => key x ≤ key y) :=
    ⟨fun a b d hab hbd => le_trans hab hbd⟩
  exact List.sorted_insertionSort _ l

/-- The output of `sort_values(ascending=False)` is pairwise non-increasing
in the sort key. -/
lemma pairwise_sortedRows (t : Table) (c : String) :
    (sortedRows t c).Pairwise
      (fun r s => keyOf t.cols c s ≤ keyOf t.cols c r) := by
  rw [sortedRows, List.pairwise_reverse]
  exact pairwise_insertionSort_key (keyOf t.cols c) t.rows

/-- Whenever `distribute_students` succeeds, its output is empty or is the
round-robin map over the descending-sorted rows. -/
lemma distribute_ok_form {t : Table} {c : String} {recs : List AllocRecord}
    (hok : distribute_students t c = .ok recs) :
    recs = [] ∨
      recs = (List.range t.rows.length).map (fun i =>
        mkAlloc t.cols c
          ((facultiesAfter t c).getD (i % (facultiesAfter t c).length) "")
          ((sortedRows t c).getD i [])) := by
  by_cases hc : c ∈ t.cols
  · have hid : identify_faculty_columns (⟨t.cols, sortedRows t c⟩ : Table) c
        = .ok (facultiesAfter t c) := by
      rw [identify_faculty_columns, if_pos hc]
      rfl
    simp only [distribute_students, sort_values, if_pos hc, hid] at hok
    by_cases h0 : (sortedRows t c).length = 0
    · rw [if_pos h0] at hok
      exact Or.inl (Except.ok.inj hok).symm
    · rw [if_neg h0] at hok
      by_cases hf : (facultiesAfter t c).length = 0
      · rw [if_pos hf] at hok
        exact Except.noConfusion hok
      · rw [if_neg hf] at hok
        by_cases hm : "Roll" ∈ t.cols ∧ "Name" ∈ t.cols ∧ "Email" ∈ t.cols
        · rw [if_pos hm] at hok
          refine Or.inr ?_
          rw [← (Except.ok.inj hok), length_sortedRows]
        · rw [if_neg hm] at hok
          exact Except.noConfusion hok
  · simp only [distribute_students, sort_values, if_neg hc] at hok
    exact Except.noConfusion hok

/-! ### C4 — output ordered by non-increasing CGPA -/

/-- C4: whenever the Allocator succeeds, any two output rows at positions
`i < j` satisfy `CGPA[i] ≥ CGPA[j]`. -/
theorem allocator_output_descending (t : Table) (c : String)
    (recs : List AllocRecord) (hok : distribute_students t c = .ok recs)
    (i j : ℕ) (hij : i < j) (hj : j < recs.length) :
    ratOf (recs.getD j dfltRec).cgpa ≤ ratOf (recs.getD i dfltRec).cgpa := by
  rcases distribute_ok_form hok with h | h
  · subst h
    simp at hj
  · subst h
    have hjN : j < t.rows.length := by simpa using hj
    have hiN : i < t.rows.length := lt_trans hij hjN
    have hjL : j < (List.range t.rows.length).length := by simpa using hjN
    have hiL : i < (List.range t.rows.length).length := by simpa using hiN
    have hjM : j < ((List.range t.rows.length).map (fun i =>
        mkAlloc t.cols c
          ((facultiesAfter t c).getD (i % (facultiesAfter t c).length) "")
          ((sortedRows t c).getD i []))).length := by simpa using hjN
    have hiM : i < ((List.range t.rows.length).map (fun i =>
        mkAlloc t.cols c
          ((facultiesAfter t c).getD (i % (facultiesAfter t c).length) "")
          ((sortedRows t c).getD i []))).length := by simpa using hiN
    rw [List.getD_eq_getElem _ _ hjM, List.getD_eq_getElem _ _ hiM,
      List.getElem_map, List.getElem_map, List.getElem_range, List.getElem_range]
    have hjS : j < (sortedRows t c).length := by rw [length_sortedRows]; exact hjN
    have hiS : i < (sortedRows t c).length := by rw [length_sortedRows]; exact hiN
    have hpw := (List.pairwise_iff_getElem).mp (pairwise_sortedRows t c)
      i j hiS hjS hij
    show keyOf t.cols c ((sortedRows t c).getD j []) ≤
      keyOf t.cols c ((sortedRows t c).getD i [])
    rw [List.getD_eq_getElem _ _ hjS, List.getD_eq_getElem _ _ hiS]
    exact hpw

/-- Witness for C4 on the concrete scenario table. -/
theorem allocator_output_descending_witness :
    distribute_students exTable "CGPA" = .ok exRecs ∧
    ratOf (exRecs.getD 1 dfltRec).cgpa ≤ ratOf (exRecs.getD 0 dfltRec).cgpa :=
  ⟨rfl, allocator_output_descending exTable "CGPA" exRecs rfl 0 1
    (by decide) (by decide)⟩

/-! ### Arithmetic lemmas for the round-robin count -/

lemma succ_mod_eq {N F : ℕ} (hF : 0 < F) :
    (N + 1) % F = if N % F + 1 = F then 0 else N % F + 1 := by
  have h0 : N + 1 = N % F + 1 + F * (N / F) := by
    conv_lhs => rw [← Nat.div_add_mod N F]
    ring
  rw [h0, Nat.add_mul_mod_self_left]
  by_cases h : N % F + 1 = F
  · rw [if_pos h, h, Nat.mod_self]
  · have hlt : N % F + 1 < F :=
      lt_of_le_of_ne (Nat.succ_le_of_lt (Nat.mod_lt N hF)) h
    rw [if_neg h, Nat.mod_eq_of_lt hlt]

lemma succ_div_eq {N F : ℕ} (hF : 0 < F) :
    (N + 1) / F = if N % F + 1 = F then N / F + 1 else N / F := by
  have h0 : N + 1 = N % F + 1 + F * (N / F) := by
    conv_lhs => rw [← Nat.div_add_mod N F]
    ring
  rw [h0, Nat.add_mul_div_left _ _ hF]
  by_cases h : N % F + 1 = F
  · rw [if_pos h, h, Nat.div_self hF, Nat.add_comm]
  · have hlt : N % F + 1 < F :=
      lt_of_le_of_ne (Nat.succ_le_of_lt (Nat.mod_lt N hF)) h
    rw [if_neg h, Nat.div_eq_of_lt hlt, Nat.zero_add]

/-- Number of indices below `N` hitting residue `j` modulo `F`. -/
lemma countP_range_mod (F j : ℕ) (hF : 0 < F) (hj : j < F) (N : ℕ) :
    (List.range N).countP (fun i => decide (i % F = j)) =
      N / F + if j < N % F then 1 else 0 := by
  induction N with
  | zero => simp
  | succ N ih =>
    rw [List.range_succ, List.countP_append, ih, succ_div_eq hF, succ_mod_eq hF]
    have hsingle : List.countP (fun i => decide (i % F = j)) [N]
        = if N % F = j then 1 else 0 := by
      simp [List.countP_cons]
    rw [hsingle]
    have hr : N % F < F := Nat.mod_lt N hF
    revert hr
    generalize N / F = q
    generalize N % F = r
    intro hr
    split_ifs <;> omega

/-- `(N + F - 1) / F` is the ceiling of `N / F`. -/
lemma ceil_div_eq (N F : ℕ) (hF : 0 < F) :
    (N + F - 1) / F = if N % F = 0 then N / F else N / F + 1 := by
  obtain ⟨q, r, hr, hN⟩ : ∃ q r, r < F ∧ N = F * q + r :=
    ⟨N / F, N % F, Nat.mod_lt N hF, (Nat.div_add_mod N F).symm⟩
  have hdiv : N / F = q := by
    rw [hN, Nat.mul_add_div hF, Nat.div_eq_of_lt hr, Nat.add_zero]
  have hmod : N % F = r := by
    rw [hN, Nat.mul_add_mod, Nat.mod_eq_of_lt hr]
  rw [hdiv, hmod, hN]
  by_cases h : r = 0
  · subst h
    rw [if_pos rfl, Nat.add_zero,
      Nat.add_sub_assoc (Nat.succ_le_of_lt hF) (F * q),
      Nat.mul_add_div hF, Nat.div_eq_of_lt (Nat.sub_lt hF Nat.one_pos),
      Nat.add_zero]
  · rw [if_neg h]
    have h1 : F * q + r + F - 1 = F * (q + 1) + (r - 1) := by
      rw [Nat.mul_succ, Nat.add_assoc (F * q) r F,
        Nat.add_sub_assoc (by omega : 1 ≤ r + F) (F * q),
        Nat.add_assoc (F * q) F (r - 1)]
      congr 1
      omega
    rw [h1, Nat.mul_add_div hF,
      Nat.div_eq_of_lt (lt_of_le_of_lt (Nat.sub_le r 1) hr), Nat.add_zero]

/-- Allocator success form: with the reference column present, the identity
columns present, and at least one faculty column, `distribute_students`
succeeds with the round-robin map over the descending-sorted rows. -/
lemma distribute_eq_map (t : Table) (c : String) (hc : c ∈ t.cols)
    (hm : "Roll" ∈ t.cols ∧ "Name" ∈ t.cols ∧ "Email" ∈ t.cols)
    (hF : ¬ (facultiesAfter t c).length = 0) :
    distribute_students t c = .ok ((List.range t.rows.length).map (fun i =>
      mkAlloc t.cols c
        ((facultiesAfter t c).getD (i % (facultiesAfter t c).length) "")
        ((sortedRows t c).getD i []))) := by
  have hid : identify_faculty_columns (⟨t.cols, sortedRows t c⟩ : Table) c
      = .ok (facultiesAfter t c) := by
    rw [identify_faculty_columns, if_pos hc]
    rfl
  simp only [distribute_students, sort_values, if_pos hc, hid]
  by_cases h0 : (sortedRows t c).length = 0
  · rw [if_pos h0]
    have hN : t.rows.length = 0 := by
      rw [← length_sortedRows t c]
      exact h0
    rw [hN]
    rfl
  · rw [if_neg h0, if_neg hF, if_pos hm, length_sortedRows]

/-! ### C3 — exactly N records, assignment `i mod F`, balanced counts -/

/-- C3: with F ≥ 1 detected faculty columns (and the identity columns
present), the Allocator emits exactly N records, assigns the record at
sorted position `i` to the faculty at index `i mod F`, and each faculty
receives `⌊N/F⌋` or `⌈N/F⌉` records. -/
theorem allocator_round_robin (t : Table) (c : String) (hc : c ∈ t.cols)
    (hm : "Roll" ∈ t.cols ∧ "Name" ∈ t.cols ∧ "Email" ∈ t.cols)
    (hF : 0 < (facultiesAfter t c).length)
    (hnd : (facultiesAfter t c).Nodup) :
    ∃ recs, distribute_students t c = .ok recs ∧
      recs.length = t.rows.length ∧
      (∀ i, i < t.rows.length →
        (recs.getD i dfltRec).assigned =
          (facultiesAfter t c).getD (i % (facultiesAfter t c).length) "") ∧
      (∀ j, j < (facultiesAfter t c).length →
        recs.countP (fun rec =>
            decide (rec.assigned = (facultiesAfter t c).getD j ""))
          = t.rows.length / (facultiesAfter t c).length ∨
        recs.countP (fun rec =>
            decide (rec.assigned = (facultiesAfter t c).getD j ""))
          = (t.rows.length + (facultiesAfter t c).length - 1) /
              (facultiesAfter t c).length) := by
  set L := (facultiesAfter t c).length with hL
  set N := t.rows.length with hN
  refine ⟨_, distribute_eq_map t c hc hm (Nat.pos_iff_ne_zero.mp hF), ?_, ?_, ?_⟩
  · simp [← hN]
  · intro i hi
    have hiM : i < ((List.range N).map (fun i =>
        mkAlloc t.cols c ((facultiesAfter t c).getD (i % L) "")
          ((sortedRows t c).getD i []))).length := by simpa using hi
    have hiL : i < (List.range N).length := by simpa using hi
    rw [List.getD_eq_getElem _ _ hiM, List.getElem_map, List.getElem_range]
    rfl
  · intro j hj
    have hcount : List.countP (fun rec =>
          decide (rec.assigned = (facultiesAfter t c).getD j ""))
        ((List.range N).map (fun i =>
          mkAlloc t.cols c ((facultiesAfter t c).getD (i % L) "")
            ((sortedRows t c).getD i [])))
        = (List.range N).countP (fun i => decide (i % L = j)) := by
      rw [List.countP_map]
      apply List.countP_congr
      intro i _
      show (decide ((facultiesAfter t c).getD (i % L) ""
            = (facultiesAfter t c).getD j "") = true) ↔
          (decide (i % L = j) = true)
      rw [decide_eq_true_eq, decide_eq_true_eq]
      have hiL : i % L < L := Nat.mod_lt i hF
      rw [List.getD_eq_getElem _ _ (hL ▸ hiL), List.getD_eq_getElem _ _ (hL ▸ hj)]
      exact hnd.getElem_inj_iff
    rw [hcount, countP_range_mod L j hF hj N]
    by_cases hj0 : j < N % L
    · rw [if_pos hj0, ceil_div_eq N L hF, if_neg (by omega)]
      exact Or.inr rfl
    · rw [if_neg hj0, Nat.add_zero]
      exact Or.inl rfl

/-- Witness for C3 on the specification's scenario: CGPA 9.0, 7.0, 8.0 with
faculties A, B gives assignments A, B, A. -/
theorem allocator_round_robin_witness :
    (0 < (facultiesAfter exTable "CGPA").length ∧
      (facultiesAfter exTable "CGPA").Nodup) ∧
    distribute_students exTable "CGPA" = .ok exRecs ∧
    exRecs.length = exTable.rows.length ∧
    exRecs.map AllocRecord.assigned = ["A", "B", "A"] := by
  obtain ⟨recs, hok, hlen, -, -⟩ := allocator_round_robin exTable "CGPA"
    (by decide) ⟨by decide, by decide, by decide⟩ (by decide) (by decide)
  have hre : recs = exRecs :=
    Except.ok.inj (hok.symm.trans (rfl : distribute_students exTable "CGPA" = .ok exRecs))
  refine ⟨⟨by decide, by decide⟩, rfl, ?_, rfl⟩
  rw [← hre]
  exact hlen

/-! ### Summarizer lemmas -/

/-- Each row contributes at most one unit across the rank counters of one
faculty, so the counter total is bounded by the row count. -/
lemma sum_countP_ranks_le (g : List Value → Option ℤ)
    (rows : List (List Value)) (F : ℕ) :
    (∑ i in Finset.range F,
        rows.countP (fun row => decide (g row = some (((i + 1 : ℕ)) : ℤ)))) ≤
      rows.length := by
  induction rows with
  | nil => simp
  | cons row rows ih =>
    have hstep : (∑ i in Finset.range F,
        List.countP (fun row => decide (g row = some (((i + 1 : ℕ)) : ℤ)))
          (row :: rows))
        = (∑ i in Finset.range F,
            List.countP (fun row => decide (g row = some (((i + 1 : ℕ)) : ℤ)))
              rows)
          + ∑ i in Finset.range F,
              (if g row = some (((i + 1 : ℕ)) : ℤ) then 1 else 0) := by
      rw [← Finset.sum_add_distrib]
      refine Finset.sum_congr rfl (fun i _ => ?_)
      rw [List.countP_cons]
      congr 1
      simp
    have hone : (∑ i in Finset.range F,
        (if g row = some (((i + 1 : ℕ)) : ℤ) then 1 else 0)) ≤ 1 := by
      cases hg : g row with
      | none => simp
      | some z =>
        have hcongr : ∀ i ∈ Finset.range F,
            (if (some z : Option ℤ) = some (((i + 1 : ℕ)) : ℤ) then (1 : ℕ)
              else 0)
              = if z = (((i + 1 : ℕ)) : ℤ) then 1 else 0 := fun i _ => by simp
        rw [Finset.sum_congr rfl hcongr, Finset.sum_boole, Nat.cast_id]
        refine Finset.card_le_one.mpr (fun a ha b hb => ?_)
        rw [Finset.mem_filter] at ha hb
        have ha2 := ha.2
        have hb2 := hb.2
        omega
    rw [hstep]
    have hsum := add_le_add ih hone
    simpa using hsum

/-! ### C7 — Summarizer shape and count bounds -/

/-- C7: with F ≥ 1 detected faculty columns, the Summarizer succeeds and its
output has exactly F rows and F+1 columns, every row holds the faculty name
followed by F counts that are natural numbers, and the sum of the F rank
counts of each faculty is at most the row count N. -/
theorem summarizer_shape_and_bounds (t : Table) (c : String) (hc : c ∈ t.cols)
    (hF : 0 < (facultiesAfter t c).length)
    (hnd : (facultiesAfter t c).Nodup) :
    ∃ S D, summarize_faculty_preferences t c = .ok (S, D) ∧
      S.rows.length = (facultiesAfter t c).length ∧
      S.cols.length = (facultiesAfter t c).length + 1 ∧
      (∀ row ∈ S.rows, row.length = (facultiesAfter t c).length + 1) ∧
      (∀ row ∈ S.rows, ∀ v ∈ row.tail, ∃ n : ℕ, v = Value.num n) ∧
      (∀ fac ∈ facultiesAfter t c,
        (∑ i in Finset.range (facultiesAfter t c).length,
            rankCount t fac (i + 1)) ≤ t.rows.length) := by
  have hid : identify_faculty_columns t c = .ok (facultiesAfter t c) := by
    rw [identify_faculty_columns, if_pos hc]
    rfl
  have hsum : summarize_faculty_preferences t c = .ok
      (⟨"Faculty" :: prefColumns (facultiesAfter t c).length,
        (facultiesAfter t c).map (summaryRow t (facultiesAfter t c).length)⟩,
       diagCount t c) := by
    simp only [summarize_faculty_preferences, hid]
  refine ⟨_, _, hsum, by simp, by simp [prefColumns], ?_, ?_, ?_⟩
  · intro row hrow
    obtain ⟨fac, -, rfl⟩ := List.mem_map.mp hrow
    simp [summaryRow]
  · intro row hrow v hv
    obtain ⟨fac, -, rfl⟩ := List.mem_map.mp hrow
    rw [summaryRow, List.tail_cons] at hv
    obtain ⟨i, -, rfl⟩ := List.mem_map.mp hv
    exact ⟨rankCount t fac (i + 1), rfl⟩
  · intro fac _
    exact sum_countP_ranks_le (fun row => pyInt (cellD t.cols row fac))
      t.rows (facultiesAfter t c).length

/-- Witness for C7 on the "abc" scenario table (two faculties). -/
theorem summarizer_shape_and_bounds_witness :
    ("CGPA" ∈ abcTable.cols ∧ 0 < (facultiesAfter abcTable "CGPA").length ∧
      (facultiesAfter abcTable "CGPA").Nodup) ∧
    (∃ S D, summarize_faculty_preferences abcTable "CGPA" = .ok (S, D) ∧
      S.rows.length = 2) := by
  obtain ⟨S, D, h1, h2, -, -, -, -⟩ :=
    summarizer_shape_and_bounds abcTable "CGPA" (by decide) (by decide)
      (by decide)
  exact ⟨⟨by decide, by decide, by decide⟩, S, D, h1, h2⟩

/-! ### C8 — per-cell errors are non-fatal (corrected)

The claim says every rank cell that cannot be read as an integer in
`[1, F]` is excluded *and logged*.  The code logs (warns) only when `int()`
itself raises; a cell that parses to an integer outside `[1, F]` fails the
`rank in summary[fac]` membership test and is skipped silently, with no
diagnostic. -/

/-- C8 counterexample: the rank cell 99 (an integer, but not an integer in
[1, 2]) is excluded from faculty A's counts, yet the Summarizer records
zero diagnostics, contradicting the claim that such a cell is logged. -/
theorem out_of_range_rank_not_logged :
    summarize_faculty_preferences oorTable "CGPA" =
      .ok (⟨["Faculty", "Pref 1", "Pref 2"],
            [[.str "A", .num 0, .num 0], [.str "B", .num 1, .num 0]]⟩, 0) ∧
    pyInt (Value.num 99) = some 99 ∧
    (∀ r : ℕ, r ≤ 2 → 1 ≤ r → ¬ pyInt (Value.num 99) = some ((r : ℕ) : ℤ)) :=
  ⟨rfl, rfl, by decide⟩

/-- C8 amended: the Summarizer never fails on a per-cell problem — whenever
the reference column is present it returns a summary together with one
diagnostic per cell on which `int()` raises (such cells are excluded from
the counts and logged); a cell parsing to an out-of-range integer is
excluded silently; the Summarizer fails (with the schema error kind) only
when faculty-column detection fails. -/
theorem summarizer_per_cell_errors_nonfatal (t : Table) (c : String) :
    (c ∈ t.cols →
      ∃ S, summarize_faculty_preferences t c = .ok (S, diagCount t c)) ∧
    (c ∉ t.cols →
      summarize_faculty_preferences t c = .error Err.keyError) ∧
    (∀ fac ∈ facultiesAfter t c, ∀ i, i < t.rows.length →
      pyInt (cellD t.cols (t.rows.getD i []) fac) = none →
      1 ≤ diagCount t c) := by
  refine ⟨?_, ?_, ?_⟩
  · intro hc
    have hid : identify_faculty_columns t c = .ok (facultiesAfter t c) := by
      rw [identify_faculty_columns, if_pos hc]
      rfl
    exact ⟨⟨"Faculty" :: prefColumns (facultiesAfter t c).length,
        (facultiesAfter t c).map (summaryRow t (facultiesAfter t c).length)⟩,
      by simp only [summarize_faculty_preferences, hid]⟩
  · intro hc
    simp only [summarize_faculty_preferences, identify_faculty_columns,
      if_neg hc]
  · intro fac hfac i hi hnone
    have hrow : 1 ≤ (facultiesAfter t c).countP
        (fun f2 => (pyInt (cellD t.cols (t.rows.getD i []) f2)).isNone) := by
      refine List.countP_pos_iff.mpr ⟨fac, hfac, ?_⟩
      rw [hnone]
      rfl
    have hmem : (facultiesAfter t c).countP
        (fun f2 => (pyInt (cellD t.cols (t.rows.getD i []) f2)).isNone)
        ∈ t.rows.map (fun row => (facultiesAfter t c).countP
            (fun f2 => (pyInt (cellD t.cols row f2)).isNone)) := by
      have hiM : i < (t.rows.map (fun row => (facultiesAfter t c).countP
          (fun f2 => (pyInt (cellD t.cols row f2)).isNone))).length := by
        simpa using hi
      have := List.getElem_mem hiM
      rw [List.getElem_map] at this
      rw [List.getD_eq_getElem _ _ hi]
      exact this
    rw [diagCount]
    exact le_trans hrow
      (List.single_le_sum (fun x _ => Nat.zero_le x) _ hmem)

/-- Witness for the amended C8 on the specification's "abc" scenario: the
summary is still produced, exactly one diagnostic is recorded for the
unparseable cell, and the remaining valid cells are all counted. -/
theorem summarizer_per_cell_errors_nonfatal_witness :
    ("CGPA" ∈ abcTable.cols) ∧
    (∃ S, summarize_faculty_preferences abcTable "CGPA"
      = .ok (S, diagCount abcTable "CGPA")) ∧
    diagCount abcTable "CGPA" = 1 ∧
    rankCount abcTable "A" 1 = 0 ∧ rankCount abcTable "A" 2 = 1 ∧
    rankCount abcTable "B" 1 = 1 ∧ rankCount abcTable "B" 2 = 1 :=
  ⟨by decide,
   (summarizer_per_cell_errors_nonfatal abcTable "CGPA").1 (by decide),
   by decide, by decide, by decide, by decide, by decide⟩

/-! ### C10 — numeric rank cells are truncated, not rejected -/

/-- C10: a faculty-column cell holding a numeric value `x` whose truncation
toward zero lies in `[1, F]` is counted as rank `trunc(x)`: Python `int()`
truncates the numeric cell, and the counter for rank `trunc(x)` — the one
stored in that faculty's summary row — counts the row. -/
theorem summarizer_truncates_numeric_ranks (t : Table) (c : String)
    (fac : String) (i : ℕ) (x : ℚ) (hfac : fac ∈ facultiesAfter t c)
    (hi : i < t.rows.length)
    (hcell : cellD t.cols (t.rows.getD i []) fac = Value.num x)
    (h1 : 1 ≤ ratTrunc x)
    (hF : ratTrunc x ≤ ((facultiesAfter t c).length : ℤ)) :
    pyInt (Value.num x) = some (ratTrunc x) ∧
    1 ≤ rankCount t fac (ratTrunc x).toNat ∧
    (summaryRow t (facultiesAfter t c).length fac).getD (ratTrunc x).toNat
        (Value.str "")
      = Value.num (rankCount t fac (ratTrunc x).toNat) := by
  have htn : (((ratTrunc x).toNat : ℕ) : ℤ) = ratTrunc x :=
    Int.toNat_of_nonneg (le_trans zero_le_one h1)
  refine ⟨rfl, ?_, ?_⟩
  · have hmem : t.rows.getD i [] ∈ t.rows := by
      rw [List.getD_eq_getElem _ _ hi]
      exact List.getElem_mem hi
    refine List.countP_pos_iff.mpr ⟨_, hmem, ?_⟩
    rw [hcell]
    show decide (pyInt (Value.num x) = some (((ratTrunc x).toNat : ℕ) : ℤ))
      = true
    rw [decide_eq_true_eq, htn]
    rfl
  · obtain ⟨k, hk⟩ : ∃ k, (ratTrunc x).toNat = k + 1 :=
      ⟨(ratTrunc x).toNat - 1, by omega⟩
    have hkF : k < (facultiesAfter t c).length := by omega
    rw [summaryRow, hk, List.getD_cons_succ]
    have hkM : k < ((List.range (facultiesAfter t c).length).map
        (fun i => Value.num (rankCount t fac (i + 1)))).length := by
      simpa using hkF
    rw [List.getD_eq_getElem _ _ hkM, List.getElem_map, List.getElem_range]

/-- Witness for C10: the cell 2.9 with F = 2 is counted as rank 2. -/
theorem summarizer_truncates_numeric_ranks_witness :
    (cellD truncTable.cols (truncTable.rows.getD 0 []) "A"
        = Value.num (mkRat 29 10) ∧
      1 ≤ ratTrunc (mkRat 29 10) ∧
      ratTrunc (mkRat 29 10) ≤
        ((facultiesAfter truncTable "CGPA").length : ℤ)) ∧
    (pyInt (Value.num (mkRat 29 10)) = some (ratTrunc (mkRat 29 10)) ∧
      1 ≤ rankCount truncTable "A" (ratTrunc (mkRat 29 10)).toNat) ∧
    ratTrunc (mkRat 29 10) = 2 ∧ rankCount truncTable "A" 2 = 1 := by
  have h := summarizer_truncates_numeric_ranks truncTable "CGPA" "A" 0
    (mkRat 29 10) (by decide) (by decide) (by decide) (by decide) (by decide)
  exact ⟨⟨by decide, by decide, by decide⟩, ⟨h.1, h.2.1⟩, by decide, by decide⟩

/-! ### C9 — the Allocator never reads preference cells -/

/-- The only cells of a row the Allocator reads: `Roll`, `Name`, `Email`
and the reference column. -/
def projCells (cols : List String) (c : String) (row : List Value) :
    Value × Value × Value × Value :=
  (cellD cols row "Roll", cellD cols row "Name", cellD cols row "Email",
   cellD cols row c)

/-- Rebuilding an allocation record from the projected cells. -/
def allocOfProj (fac : String) (p : Value × Value × Value × Value) :
    AllocRecord :=
  ⟨p.1, p.2.1, p.2.2.1, p.2.2.2, fac⟩

lemma mkAlloc_eq_allocOfProj (cols : List String) (c fac : String)
    (row : List Value) :
    mkAlloc cols c fac row = allocOfProj fac (projCells cols c row) := rfl

/-- Sorting commutes with projecting each row to the cells the Allocator
reads, because the sort key is one of the projected cells. -/
lemma map_projCells_sortedRows (t : Table) (c : String) :
    (sortedRows t c).map (projCells t.cols c)
      = (List.insertionSort
          (fun p q : Value × Value × Value × Value =>
            ratOf p.2.2.2 ≤ ratOf q.2.2.2)
          (t.rows.map (projCells t.cols c))).reverse := by
  rw [sortedRows, List.map_reverse]
  congr 1
  refine List.map_insertionSort _ _ (projCells t.cols c) t.rows ?_
  intro a _ b _
  exact Iff.rfl

lemma getD_map {α β : Type} (f : α → β) (l : List α) (i : ℕ) (d : α) :
    (l.map f).getD i (f d) = f (l.getD i d) := by
  by_cases h : i < l.length
  · rw [List.getD_eq_getElem _ _ (by simpa using h), List.getD_eq_getElem _ _ h,
      List.getElem_map]
  · have h2 : l.length ≤ i := le_of_not_lt h
    have h3 : (l.map f).length ≤ i := by simpa using h2
    rw [List.getD_eq_getElem?_getD, List.getD_eq_getElem?_getD,
      List.getElem?_eq_none h2, List.getElem?_eq_none h3]
    rfl

/-- C9: two tables with the same schema whose rows agree on the `Roll`,
`Name`, `Email` and reference cells — but may differ arbitrarily in the
faculty preference cells — produce identical Allocator output. -/
theorem allocator_ignores_preferences (t1 t2 : Table) (c : String)
    (hcols : t1.cols = t2.cols) (hlen : t1.rows.length = t2.rows.length)
    (hcells : ∀ i, i < t1.rows.length →
      projCells t1.cols c (t1.rows.getD i [])
        = projCells t2.cols c (t2.rows.getD i [])) :
    distribute_students t1 c = distribute_students t2 c := by
  have hmap : t1.rows.map (projCells t1.cols c)
      = t2.rows.map (projCells t2.cols c) := by
    apply List.ext_getElem (by simpa using hlen)
    intro i h1 h2
    rw [List.getElem_map, List.getElem_map]
    have hi1 : i < t1.rows.length := by simpa using h1
    have hi2 : i < t2.rows.length := by simpa using h2
    have hcc := hcells i hi1
    rwa [List.getD_eq_getElem _ _ hi1, List.getD_eq_getElem _ _ hi2] at hcc
  have hsorted : (sortedRows t1 c).map (projCells t1.cols c)
      = (sortedRows t2 c).map (projCells t2.cols c) := by
    rw [map_projCells_sortedRows, map_projCells_sortedRows, hmap]
  by_cases hc : c ∈ t1.cols
  · have hc2 : c ∈ t2.cols := hcols ▸ hc
    have hid1 : identify_faculty_columns (⟨t1.cols, sortedRows t1 c⟩ : Table) c
        = .ok (facultiesAfter t1 c) := by
      rw [identify_faculty_columns, if_pos hc]
      rfl
    have hid2 : identify_faculty_columns (⟨t2.cols, sortedRows t2 c⟩ : Table) c
        = .ok (facultiesAfter t2 c) := by
      rw [identify_faculty_columns, if_pos hc2]
      rfl
    have hfacs : facultiesAfter t1 c = facultiesAfter t2 c := by
      rw [facultiesAfter, facultiesAfter, hcols]
    rw [hcols, hfacs] at hid1
    simp only [distribute_students, sort_values, if_pos hc, if_pos hc2,
      hid1, hid2, length_sortedRows, hlen, hfacs, hcols]
    have hsorted2 : (sortedRows t1 c).map (projCells t2.cols c)
        = (sortedRows t2 c).map (projCells t2.cols c) := by
      rw [← hcols] at hsorted ⊢
      exact hsorted
    have hfun : (fun i => mkAlloc t2.cols c
          ((facultiesAfter t2 c).getD
            (i % (facultiesAfter t2 c).length) "")
          ((sortedRows t1 c).getD i []))
        = (fun i => mkAlloc t2.cols c
          ((facultiesAfter t2 c).getD
            (i % (facultiesAfter t2 c).length) "")
          ((sortedRows t2 c).getD i [])) := by
      funext i
      rw [mkAlloc_eq_allocOfProj, mkAlloc_eq_allocOfProj]
      have hproj : projCells t2.cols c ((sortedRows t1 c).getD i [])
          = projCells t2.cols c ((sortedRows t2 c).getD i []) := by
        rw [← getD_map (projCells t2.cols c) (sortedRows t1 c) i [],
          ← getD_map (projCells t2.cols c) (sortedRows t2 c) i [], hsorted2]
      rw [hproj]
    rw [hfun]
  · have hc2 : c ∉ t2.cols := hcols ▸ hc
    simp only [distribute_students, sort_values, if_neg hc, if_neg hc2]

/-- Two one-row tables agreeing on `Roll`, `Name`, `Email`, `CGPA` but with
different preference cells. -/
def prefTableA : Table :=
  { cols := ["Roll", "Name", "Email", "CGPA", "A", "B"]
    rows := [[.num 1, .str "p", .str "p@x", .num 9, .num 1, .num 2]] }

/-- Same identity cells as `prefTableA`, different preference cells. -/
def prefTableB : Table :=
  { cols := ["Roll", "Name", "Email", "CGPA", "A", "B"]
    rows := [[.num 1, .str "p", .str "p@x", .num 9, .num 2, .str "zz"]] }

/-- Witness for C9 on two concrete tables differing only in preferences. -/
theorem allocator_ignores_preferences_witness :
    (prefTableA.cols = prefTableB.cols ∧
      prefTableA.rows.length = prefTableB.rows.length ∧
      (∀ i, i < prefTableA.rows.length →
        projCells prefTableA.cols "CGPA" (prefTableA.rows.getD i [])
          = projCells prefTableB.cols "CGPA" (prefTableB.rows.getD i []))) ∧
    distribute_students prefTableA "CGPA"
      = distribute_students prefTableB "CGPA" ∧
    prefTableA ≠ prefTableB :=
  ⟨⟨rfl, rfl, by decide⟩,
   allocator_ignores_preferences prefTableA prefTableB "CGPA" rfl rfl
     (by decide),
   by decide⟩

end FacultyAlloc
